import Mathlib

/-
Verification of the ppmtrans repository: a blocked 2D array (uarray2b.c),
a plain method suite (a2plain.c) and an image transformation driver
(ppmtrans.c).  The C code is shallowly embedded: machine integers become
Nat (or Int where C signed semantics matter), traversals become explicit
coordinate lists, and writes through returned element pointers become
explicit function updates.
-/

/-! ### Blocked 2D array: uarray2b.c -/

/-- Blocksize selected by `UArray2b_new_64K_block` (uarray2b.c:66-88).
`num_cells = 64000 / size` is C integer division.  The C code compares
`sqrt((double) num_cells)` against the dimensions; since `num_cells ≤ 64000`,
the correctly rounded double square root compares with an integer exactly as
the real square root does, so `sqrt(num_cells) > width` is embedded as
`width * width < num_cells`, and the truncating cast `(int) sqrt(num_cells)`
as `Nat.sqrt num_cells`. -/
def UArray2b_new_64K_blocksize (width height size : Nat) : Nat :=
  let num_cells := 64000 / size
  if num_cells < 1 then
    1
  else if width * width < num_cells ∨ height * height < num_cells then
    if height < width then height else width
  else
    Nat.sqrt num_cells

/-- Number of blocks along one dimension, as computed by `blocks_init`
(uarray2b.c:114-123): `(int) ceil((double) dim / (double) blocksize)`, which
is exact integer ceiling division for the int ranges in use. -/
def numBlocks (dim blocksize : Nat) : Nat := (dim + blocksize - 1) / blocksize

/-- Extent of block `i` along a dimension as computed by the clipping of
`UArray2b_map` (uarray2b.c:266-279): the last block gets `dim % blocksize`
cells when that is nonzero, every other block the full blocksize. -/
def blockExtent (dim blocksize i nBlocks : Nat) : Nat :=
  if i = nBlocks - 1 ∧ dim % blocksize ≠ 0 then dim % blocksize else blocksize

/-- Sequence of logical (col, row) coordinates on which `UArray2b_map`
(uarray2b.c:253-292) invokes the callback: blocks in row-major block order,
and inside each block the cells in row-major order clipped to the block's
valid extent; `cell_col = blk_col * blocksize + x`,
`cell_row = blk_row * blocksize + y`. -/
def blockMajorCoords (width height blocksize : Nat) : List (Nat × Nat) :=
  (List.range (numBlocks height blocksize)).flatMap (fun blk_row =>
    (List.range (numBlocks width blocksize)).flatMap (fun blk_col =>
      (List.range
          (blockExtent height blocksize blk_row
            (numBlocks height blocksize))).flatMap (fun y =>
        (List.range
            (blockExtent width blocksize blk_col
              (numBlocks width blocksize))).map (fun x =>
          (blk_col * blocksize + x, blk_row * blocksize + y)))))

/-- Row-major traversal order of a width × height grid.  Modelled from the
spec: the flat leaf array is external and exposes `UArray2_map_row_major`,
visiting rows in order and each row left to right. -/
def rowMajorCoords (width height : Nat) : List (Nat × Nat) :=
  (List.range height).flatMap (fun row =>
    (List.range width).map (fun col => (col, row)))

/-- Column-major traversal order of a width × height grid.  Modelled from the
spec: the flat leaf array is external and exposes `UArray2_map_col_major`. -/
def colMajorCoords (width height : Nat) : List (Nat × Nat) :=
  (List.range width).flatMap (fun col =>
    (List.range height).map (fun row => (col, row)))

/-- Representation of a blocked 2D array (struct T, uarray2b.c:32-37):
dimensions, blocksize and the contents of the grid of blocks, each block a
flat buffer of `blocksize * blocksize` cells addressed by (block col, block
row) and a flat offset.  The element byte size plays no role at the value
level. -/
structure UArray2b (α : Type) : Type where
  width : Nat
  height : Nat
  blocksize : Nat
  blocks : Nat × Nat → Nat → α

/-- Element resolved by `UArray2b_at` (uarray2b.c:235-246): block
`(col / blocksize, row / blocksize)`, flat offset
`blocksize * (row % blocksize) + col % blocksize`. -/
def UArray2b_at {α : Type} (g : UArray2b α) (col row : Nat) : α :=
  g.blocks (col / g.blocksize, row / g.blocksize)
    (g.blocksize * (row % g.blocksize) + col % g.blocksize)

/-- Write through the reference returned by `UArray2b_at`: replace the cell
of block `(col / blocksize, row / blocksize)` at the flat offset that
`UArray2b_at` computes. -/
def UArray2b_write {α : Type} (g : UArray2b α) (col row : Nat) (v : α) :
    UArray2b α :=
  { g with
    blocks := fun b i =>
      if b = (col / g.blocksize, row / g.blocksize) ∧
          i = g.blocksize * (row % g.blocksize) + col % g.blocksize then v
      else g.blocks b i }

/-- The (coordinate, element) pairs passed to the callback by `UArray2b_map`
(uarray2b.c:281-289): each visited coordinate paired with
`UArray2b_at uarray2b cell_col cell_row`, exactly as the `apply(...)` call
passes it. -/
def UArray2b_map_visits {α : Type} (g : UArray2b α) :
    List ((Nat × Nat) × α) :=
  (blockMajorCoords g.width g.height g.blocksize).map
    (fun p => (p, UArray2b_at g p.1 p.2))

/-- C-faithful `UArray2b_at` (uarray2b.c:235-246) with the bounds checks the
program actually performs: the function's own
`assert(col < width && row < height)`, then the index checks of the external
`UArray2_at` on the block grid and of `UArray_at` on the block's buffer of
`blocksize * blocksize` cells (Hanson's checked leaves).  C int division and
remainder truncate toward zero, embedded as `Int.tdiv` and `Int.tmod`.  The
result is the resolved (block, offset), or `none` when a check fails. -/
def UArray2b_at_checked (width height blocksize col row : Int) :
    Option ((Int × Int) × Int) :=
  if col < width ∧ row < height then
    let bc := Int.tdiv col blocksize
    let br := Int.tdiv row blocksize
    let blocks_w := Int.tdiv (width + blocksize - 1) blocksize
    let blocks_h := Int.tdiv (height + blocksize - 1) blocksize
    if 0 ≤ bc ∧ bc < blocks_w ∧ 0 ≤ br ∧ br < blocks_h then
      let off := blocksize * Int.tmod row blocksize + Int.tmod col blocksize
      if 0 ≤ off ∧ off < blocksize * blocksize then
        some ((bc, br), off)
      else none
    else none
  else none

/-! ### Transform engine: ppmtrans.c -/

/-- Transform type constant (ppmtrans.c:36). -/
def ROTATE : Int := 0

/-- Transform type constant (ppmtrans.c:37). -/
def FLIP : Int := 1

/-- Transform type constant (ppmtrans.c:38). -/
def TRANSPOSE : Int := 2

/-- Flip direction constant (ppmtrans.c:41). -/
def HORIZ : Int := 1

/-- Flip direction constant (ppmtrans.c:42). -/
def VERT : Int := 2

/-- Dimensions (width, height) of the destination grid allocated by
`create_image` (ppmtrans.c:378-392).  The call `methods->new(height, width,
size)` in the swapped branch produces a grid of width `height` and height
`width`. -/
def create_image_dims (ptype magnitude : Int) (width height : Nat) : Nat × Nat :=
  if (ptype = ROTATE ∧ (magnitude = 90 ∨ magnitude = 270)) ∨ ptype = TRANSPOSE then
    (height, width)
  else
    (width, height)

/-- Destination coordinate computed by `rotate_map` (ppmtrans.c:287-312) for a
source cell (col, row) of a grid of the given width and height.  `none` embeds
the fall-through where no branch assigns `dest_pixel` and the final store
would dereference an uninitialized pointer. -/
def rotate_map_dest (rotation : Int) (width height col row : Nat) :
    Option (Nat × Nat) :=
  if rotation = 0 then some (col, row)
  else if rotation = 90 then some (height - row - 1, col)
  else if rotation = 180 then some (width - col - 1, height - row - 1)
  else if rotation = 270 then some (row, width - col - 1)
  else none

/-- Destination coordinate computed by `flip_map` (ppmtrans.c:322-342). -/
def flip_map_dest (flip_type : Int) (width height col row : Nat) :
    Option (Nat × Nat) :=
  if flip_type = HORIZ then some (width - col - 1, row)
  else if flip_type = VERT then some (col, height - row - 1)
  else none

/-- Destination coordinate computed by `transpose_map` (ppmtrans.c:352-365). -/
def transpose_map_dest (width height col row : Nat) : Option (Nat × Nat) :=
  some (row, col)

/-- Store of one element into a destination grid through the pointer returned
by `methods->at`: the `*dest_pixel = *source_pixel` step of the callbacks. -/
def writeCell {α : Type} (dest : Nat → Nat → α) (x y : Nat) (v : α) :
    Nat → Nat → α :=
  fun i j => if i = x ∧ j = y then v else dest i j

/-- Effect of one `rotate_map` callback invocation on the destination grid
contents.  When no branch assigns `dest_pixel` the C program has undefined
behaviour; the embedding leaves the destination unchanged there (the case is
unreachable under the preconditions established by `main`, see C9). -/
def rotate_map_apply {α : Type} (rotation : Int) (width height col row : Nat)
    (srcElem : α) (dest : Nat → Nat → α) : Nat → Nat → α :=
  match rotate_map_dest rotation width height col row with
  | some (x, y) => writeCell dest x y srcElem
  | none => dest

/-- Effect of one `flip_map` callback invocation on the destination grid. -/
def flip_map_apply {α : Type} (flip_type : Int) (width height col row : Nat)
    (srcElem : α) (dest : Nat → Nat → α) : Nat → Nat → α :=
  match flip_map_dest flip_type width height col row with
  | some (x, y) => writeCell dest x y srcElem
  | none => dest

/-- Effect of one `transpose_map` callback invocation on the destination
grid. -/
def transpose_map_apply {α : Type} (width height col row : Nat)
    (srcElem : α) (dest : Nat → Nat → α) : Nat → Nat → α :=
  match transpose_map_dest width height col row with
  | some (x, y) => writeCell dest x y srcElem
  | none => dest

/-- Command-line option tokens consumed by the argument loop of `main`
(ppmtrans.c:109-168).  `rotateArg n` carries the `strtol` value of the
argument following `-rotate`, `flipArg s` the string following `-flip`, and
`unknown` an unrecognized `-` option. -/
inductive CmdArg : Type where
  | rowMajor : CmdArg
  | colMajor : CmdArg
  | blockMajor : CmdArg
  | rotateArg : Int → CmdArg
  | flipArg : String → CmdArg
  | transposeArg : CmdArg
  | timeArg : String → CmdArg
  | fileArg : String → CmdArg
  | unknown : CmdArg

/-- One iteration of the argument loop of `main` (ppmtrans.c:109-168) acting
on the state (transform_type, magnitude).  `none` embeds every path that
prints a diagnostic and exits before any transform runs (invalid rotation
value, invalid flip direction, unknown option). -/
def mainParseStep (st : Int × Int) : CmdArg → Option (Int × Int)
  | CmdArg.rotateArg v =>
      if v = 0 ∨ v = 90 ∨ v = 180 ∨ v = 270 then some (ROTATE, v) else none
  | CmdArg.flipArg s =>
      if s = "horizontal" then some (FLIP, HORIZ)
      else if s = "vertical" then some (FLIP, VERT)
      else none
  | CmdArg.transposeArg => some (TRANSPOSE, st.2)
  | CmdArg.unknown => none
  | _ => some st

/-- The whole argument loop of `main`: iterate `mainParseStep` over the
arguments, starting from the declared initial state
`transform_type = ROTATE`, `magnitude = 0` (ppmtrans.c:97-98). -/
def mainParseArgs : Int × Int → List CmdArg → Option (Int × Int)
  | st, [] => some st
  | st, a :: rest =>
      match mainParseStep st a with
      | some st' => mainParseArgs st' rest
      | none => none

/-- States of the argument loop in which the magnitude is valid for the
transform type that will select the callback. -/
def validMagnitude (st : Int × Int) : Prop :=
  (st.1 = ROTATE → st.2 = 0 ∨ st.2 = 90 ∨ st.2 = 180 ∨ st.2 = 270) ∧
  (st.1 = FLIP → st.2 = HORIZ ∨ st.2 = VERT)

/-- A ppm pixel grid as the transform engine sees it: dimensions and
contents; `pix c r` is the element at column c, row r. -/
structure Grid (α : Type) : Type where
  width : Nat
  height : Nat
  pix : Nat → Nat → α

/-- One full rotate-90 transform as `transform` performs it
(ppmtrans.c:262-277): allocate a destination of the dimensions chosen by
`create_image`, then traverse the source (row-major, the plain suite's
default order) applying the `rotate_map` callback to every source cell.
`d` is the unspecified initial content of the freshly allocated
destination. -/
def transform_rotate90 {α : Type} (d : α) (g : Grid α) : Grid α :=
  { width := (create_image_dims ROTATE 90 g.width g.height).1,
    height := (create_image_dims ROTATE 90 g.width g.height).2,
    pix := (rowMajorCoords g.width g.height).foldl
      (fun dest p =>
        rotate_map_apply 90 g.width g.height p.1 p.2 (g.pix p.1 p.2) dest)
      (fun _ _ => d) }

/-- Denotation of a map-function slot of the method suite: the visit order
(coordinate sequence) the traversal produces on a grid of a given width and
height. -/
def A2MapFun : Type := Nat → Nat → List (Nat × Nat)

/-- Traversal slots of `struct A2Methods_T` (a2methods.h) — the portion of
the capability table the claims are about; `none` embeds a NULL function
pointer.  The constructor, destructor and accessor slots are modelled by the
concrete operations elsewhere in this file. -/
structure A2Methods_T : Type where
  map_row_major : Option A2MapFun
  map_col_major : Option A2MapFun
  map_block_major : Option A2MapFun
  map_default : Option A2MapFun
  small_map_row_major : Option A2MapFun
  small_map_col_major : Option A2MapFun
  small_map_block_major : Option A2MapFun
  small_map_default : Option A2MapFun

namespace A2Plain

/-- Visit order of a2plain.c's `map_row_major` (a2plain.c:127-130), which
delegates to the leaf `UArray2_map_row_major`. -/
def map_row_major : A2MapFun := fun width height => rowMajorCoords width height

/-- Visit order of a2plain.c's `map_col_major` (a2plain.c:117-120), which
delegates to the leaf `UArray2_map_col_major`. -/
def map_col_major : A2MapFun := fun width height => colMajorCoords width height

/-- Visit order of `small_map_row_major` (a2plain.c:168-172): the same
row-major traversal, wrapping the reduced-arity callback in `apply_small`. -/
def small_map_row_major : A2MapFun :=
  fun width height => rowMajorCoords width height

/-- Visit order of `small_map_col_major` (a2plain.c:157-161). -/
def small_map_col_major : A2MapFun :=
  fun width height => colMajorCoords width height

end A2Plain

/-- The plain method suite `uarray2_methods_plain_struct` (a2plain.c:175-192):
its traversal slots, with NULL block-major slots and the row-major maps
reused as the default slots. -/
def uarray2_methods_plain : A2Methods_T :=
  { map_row_major := some A2Plain.map_row_major,
    map_col_major := some A2Plain.map_col_major,
    map_block_major := none,
    map_default := some A2Plain.map_row_major,
    small_map_row_major := some A2Plain.small_map_row_major,
    small_map_col_major := some A2Plain.small_map_col_major,
    small_map_block_major := none,
    small_map_default := some A2Plain.small_map_row_major }

/-- The `SET_METHODS` macro (ppmtrans.c:45-55): pick a methods suite and one
of its map slots; when the slot is NULL, print a diagnostic and `exit(1)`
(embedded as `Except.error ()`), otherwise use the selected function. -/
def SET_METHODS (methods : A2Methods_T)
    (slot : A2Methods_T → Option A2MapFun) : Except Unit A2MapFun :=
  match slot methods with
  | some f => Except.ok f
  | none => Except.error ()

theorem mainParseStep_valid {st st' : Int × Int} {a : CmdArg}
    (hst : validMagnitude st) (h : mainParseStep st a = some st') :
    validMagnitude st' := by
  cases a <;>
    simp only [mainParseStep, ROTATE, FLIP, TRANSPOSE, HORIZ, VERT] at h
  case rowMajor => exact Option.some.inj h ▸ hst
  case colMajor => exact Option.some.inj h ▸ hst
  case blockMajor => exact Option.some.inj h ▸ hst
  case rotateArg v =>
    split at h
    · cases h
      constructor
      · intro _; assumption
      · intro hforty; exact absurd hforty (by norm_num [ROTATE, FLIP])
    · cases h
  case flipArg s =>
    split at h
    · cases h
      constructor
      · intro hforty; exact absurd hforty (by norm_num [ROTATE, FLIP])
      · intro _; left; rfl
    · split at h
      · cases h
        constructor
        · intro hforty; exact absurd hforty (by norm_num [ROTATE, FLIP])
        · intro _; right; rfl
      · cases h
  case transposeArg =>
    cases h
    constructor
    · intro hforty; exact absurd hforty (by norm_num [ROTATE, TRANSPOSE])
    · intro hforty; exact absurd hforty (by norm_num [FLIP, TRANSPOSE])
  case timeArg s => exact Option.some.inj h ▸ hst
  case fileArg s => exact Option.some.inj h ▸ hst
  case unknown => cases h

theorem mainParseArgs_valid {st st' : Int × Int} {args : List CmdArg}
    (hst : validMagnitude st) (h : mainParseArgs st args = some st') :
    validMagnitude st' := by
  induction args generalizing st with
  | nil => simp only [mainParseArgs] at h; exact Option.some.inj h ▸ hst
  | cons a rest ih =>
    simp only [mainParseArgs] at h
    cases hstep : mainParseStep st a with
    | none => rw [hstep] at h; cases h
    | some st1 =>
      rw [hstep] at h
      exact ih (mainParseStep_valid hst hstep) h

/-! ### Claim theorems (first group) -/

/-- C3: `UArray2b_new_64K_block` picks the blocksize by three mutually
exclusive cases on `cells = 64000 / elementSize`: blocksize 1 when
`cells < 1`; `min width height` when the cache-fitting square side exceeds a
dimension; otherwise `floor (sqrt cells)`.  Concretely: elementSize > 64000
gives 1; a 1000×1000 grid with 1-byte elements gives 252; a 5×1000 grid with
1-byte elements gives 5. -/
theorem UArray2b_new_64K_block_heuristic (width height size : Nat)
    (hw : 0 < width) (hh : 0 < height) (hs : 0 < size) :
    (64000 / size < 1 → UArray2b_new_64K_blocksize width height size = 1) ∧
    (1 ≤ 64000 / size →
      (width * width < 64000 / size ∨ height * height < 64000 / size) →
      UArray2b_new_64K_blocksize width height size = min width height) ∧
    (1 ≤ 64000 / size →
      ¬(width * width < 64000 / size ∨ height * height < 64000 / size) →
      UArray2b_new_64K_blocksize width height size = Nat.sqrt (64000 / size)) ∧
    (64000 < size → UArray2b_new_64K_blocksize width height size = 1) ∧
    UArray2b_new_64K_blocksize 1000 1000 1 = 252 ∧
    UArray2b_new_64K_blocksize 5 1000 1 = 5 := by
  have hsqrt : Nat.sqrt 64000 = 252 := by
    have h1 : 252 ≤ Nat.sqrt 64000 := Nat.le_sqrt.mpr (by norm_num)
    have h2 : Nat.sqrt 64000 < 253 := Nat.sqrt_lt.mpr (by norm_num)
    omega
  refine ⟨?_, ?_, ?_, ?_, ?_, ?_⟩
  · intro h
    simp only [UArray2b_new_64K_blocksize]
    rw [if_pos h]
  · intro h1 h2
    simp only [UArray2b_new_64K_blocksize]
    rw [if_neg (by omega), if_pos h2, Nat.min_def]
    split_ifs <;> omega
  · intro h1 h2
    simp only [UArray2b_new_64K_blocksize]
    rw [if_neg (by omega), if_neg h2]
  · intro h
    have h0 : 64000 / size = 0 := Nat.div_eq_of_lt h
    simp only [UArray2b_new_64K_blocksize]
    rw [if_pos (by omega)]
  · simp only [UArray2b_new_64K_blocksize]
    norm_num [hsqrt]
  · decide

/-- Witness for C3 at the concrete input width = 5, height = 1000,
elementSize = 1. -/
theorem UArray2b_new_64K_block_heuristic_witness :
    (0 < 5 ∧ 0 < 1000 ∧ 0 < 1) ∧ UArray2b_new_64K_blocksize 5 1000 1 = 5 :=
  ⟨by decide,
   (UArray2b_new_64K_block_heuristic 5 1000 1 (by decide) (by decide)
     (by decide)).2.2.2.2.2⟩

/-- C5: `create_image` allocates the destination with width H and height W
for rotate 90, rotate 270 and transpose, and with the source dimensions for
rotate 0, rotate 180, flip horizontal and flip vertical. -/
theorem create_image_dims_spec (W H : Nat) :
    create_image_dims ROTATE 90 W H = (H, W) ∧
    create_image_dims ROTATE 270 W H = (H, W) ∧
    (∀ m : Int, create_image_dims TRANSPOSE m W H = (H, W)) ∧
    create_image_dims ROTATE 0 W H = (W, H) ∧
    create_image_dims ROTATE 180 W H = (W, H) ∧
    create_image_dims FLIP HORIZ W H = (W, H) ∧
    create_image_dims FLIP VERT W H = (W, H) := by
  refine ⟨?_, ?_, ?_, ?_, ?_, ?_, ?_⟩ <;>
    simp [create_image_dims, ROTATE, FLIP, TRANSPOSE, HORIZ, VERT]

/-- C2: for every in-bounds source coordinate, each transform callback writes
the source element unchanged into exactly the destination coordinate of the
specification table: rotate 0 to (col, row), rotate 90 to (H-row-1, col),
rotate 180 to (W-col-1, H-row-1), rotate 270 to (row, W-col-1), flip
horizontal to (W-col-1, row), flip vertical to (col, H-row-1), transpose to
(row, col). -/
theorem transform_callbacks_write_mapped_cell {α : Type} (W H col row : Nat)
    (hc : col < W) (hr : row < H) (v : α) (dest : Nat → Nat → α) :
    rotate_map_dest 0 W H col row = some (col, row) ∧
    rotate_map_dest 90 W H col row = some (H - row - 1, col) ∧
    rotate_map_dest 180 W H col row = some (W - col - 1, H - row - 1) ∧
    rotate_map_dest 270 W H col row = some (row, W - col - 1) ∧
    flip_map_dest HORIZ W H col row = some (W - col - 1, row) ∧
    flip_map_dest VERT W H col row = some (col, H - row - 1) ∧
    transpose_map_dest W H col row = some (row, col) ∧
    rotate_map_apply 0 W H col row v dest col row = v ∧
    rotate_map_apply 90 W H col row v dest (H - row - 1) col = v ∧
    rotate_map_apply 180 W H col row v dest (W - col - 1) (H - row - 1) = v ∧
    rotate_map_apply 270 W H col row v dest row (W - col - 1) = v ∧
    flip_map_apply HORIZ W H col row v dest (W - col - 1) row = v ∧
    flip_map_apply VERT W H col row v dest col (H - row - 1) = v ∧
    transpose_map_apply W H col row v dest row col = v := by
  refine ⟨?_, ?_, ?_, ?_, ?_, ?_, ?_, ?_, ?_, ?_, ?_, ?_, ?_, ?_⟩ <;>
    simp [rotate_map_dest, flip_map_dest, transpose_map_dest,
      rotate_map_apply, flip_map_apply, transpose_map_apply, writeCell,
      HORIZ, VERT]

/-- Witness for C2 at W = 2, H = 3, (col, row) = (1, 2). -/
theorem transform_callbacks_write_mapped_cell_witness :
    rotate_map_dest 90 2 3 1 2 = some (0, 1) ∧
    rotate_map_apply 90 2 3 1 2 7 (fun _ _ => (0 : Nat)) 0 1 = 7 :=
  ⟨(transform_callbacks_write_mapped_cell 2 3 1 2 (by decide) (by decide) 7
      (fun _ _ => (0 : Nat))).2.1,
   (transform_callbacks_write_mapped_cell 2 3 1 2 (by decide) (by decide) 7
      (fun _ _ => (0 : Nat))).2.2.2.2.2.2.2.2.1⟩

/-- C9: the rotate and flip callbacks assign the destination pointer before
dereferencing it for every magnitude in their respective valid sets, and the
argument validation in `main` guarantees that every state reaching the
callbacks satisfies exactly those preconditions. -/
theorem callback_dest_always_assigned (args : List CmdArg) (t m : Int)
    (hp : mainParseArgs (ROTATE, 0) args = some (t, m)) :
    (∀ (r : Int) (W H col row : Nat), (r = 0 ∨ r = 90 ∨ r = 180 ∨ r = 270) →
      (rotate_map_dest r W H col row).isSome = true) ∧
    (∀ (f : Int) (W H col row : Nat), (f = HORIZ ∨ f = VERT) →
      (flip_map_dest f W H col row).isSome = true) ∧
    (t = ROTATE → m = 0 ∨ m = 90 ∨ m = 180 ∨ m = 270) ∧
    (t = FLIP → m = HORIZ ∨ m = VERT) ∧
    (∀ W H col row : Nat,
      (t = ROTATE → (rotate_map_dest m W H col row).isSome = true) ∧
      (t = FLIP → (flip_map_dest m W H col row).isSome = true)) := by
  have hrot : ∀ (r : Int) (W H col row : Nat),
      (r = 0 ∨ r = 90 ∨ r = 180 ∨ r = 270) →
      (rotate_map_dest r W H col row).isSome = true := by
    intro r W H col row hr
    rcases hr with rfl | rfl | rfl | rfl <;> simp [rotate_map_dest]
  have hflip : ∀ (f : Int) (W H col row : Nat), (f = HORIZ ∨ f = VERT) →
      (flip_map_dest f W H col row).isSome = true := by
    intro f W H col row hf
    rcases hf with rfl | rfl <;> simp [flip_map_dest, HORIZ, VERT]
  have hvalid : validMagnitude (t, m) := by
    refine mainParseArgs_valid ?_ hp
    constructor
    · intro _; left; rfl
    · intro hzero; exact absurd hzero (by norm_num [ROTATE, FLIP])
  exact ⟨hrot, hflip, hvalid.1, hvalid.2,
    fun W H col row =>
      ⟨fun ht => hrot m W H col row (hvalid.1 ht),
       fun ht => hflip m W H col row (hvalid.2 ht)⟩⟩

/-- Witness for C9: parsing the arguments `-flip horizontal -rotate 90`
succeeds with transform type rotate and magnitude 90, and the rotate callback
assigns its destination pointer there. -/
theorem callback_dest_always_assigned_witness :
    (rotate_map_dest 90 4 5 2 3).isSome = true :=
  ((callback_dest_always_assigned
      [CmdArg.flipArg "horizontal", CmdArg.rotateArg 90] ROTATE 90
      (by decide)).2.2.2.2 4 5 2 3).1 rfl

/-! ### Arithmetic of the block grid -/

/-- With a nonzero remainder, ceiling division is the floor quotient plus
one. -/
theorem numBlocks_of_mod_ne_zero {dim bs : Nat} (hb : 0 < bs)
    (hr : dim % bs ≠ 0) : numBlocks dim bs = dim / bs + 1 := by
  have hdm : bs * (dim / bs) + dim % bs = dim := Nat.div_add_mod dim bs
  have hml : dim % bs < bs := Nat.mod_lt _ hb
  apply Nat.le_antisymm
  · have h1 : dim + bs - 1 ≤ dim + bs := by omega
    calc numBlocks dim bs ≤ (dim + bs) / bs := Nat.div_le_div_right h1
    _ = dim / bs + 1 := Nat.add_div_right dim hb
  · rw [numBlocks, Nat.le_div_iff_mul_le hb, Nat.add_mul, one_mul,
      Nat.mul_comm]
    omega

/-- With remainder zero, ceiling division equals the floor quotient. -/
theorem numBlocks_of_mod_eq_zero {dim bs : Nat} (hb : 0 < bs) (hd : 0 < dim)
    (hr : dim % bs = 0) : numBlocks dim bs = dim / bs := by
  have hdm : bs * (dim / bs) + dim % bs = dim := Nat.div_add_mod dim bs
  apply Nat.le_antisymm
  · have hlt : numBlocks dim bs < dim / bs + 1 := by
      rw [numBlocks, Nat.div_lt_iff_lt_mul hb, Nat.add_mul, one_mul,
        Nat.mul_comm]
      omega
    omega
  · apply Nat.div_le_div_right
    omega

/-- The block grid covers the whole dimension. -/
theorem le_numBlocks_mul {dim bs : Nat} (hd : 0 < dim) (hb : 0 < bs) :
    dim ≤ numBlocks dim bs * bs := by
  have hdm : bs * (dim / bs) + dim % bs = dim := Nat.div_add_mod dim bs
  have hml : dim % bs < bs := Nat.mod_lt _ hb
  by_cases hr : dim % bs = 0
  · rw [numBlocks_of_mod_eq_zero hb hd hr, Nat.mul_comm]
    omega
  · rw [numBlocks_of_mod_ne_zero hb hr, Nat.add_mul, one_mul, Nat.mul_comm]
    omega

/-- A clipped block extent never exceeds the blocksize. -/
theorem blockExtent_le {dim bs i n : Nat} (hb : 0 < bs) :
    blockExtent dim bs i n ≤ bs := by
  unfold blockExtent
  split
  · exact Nat.le_of_lt (Nat.mod_lt _ hb)
  · exact Nat.le_refl bs

/-- Clipping correctness: inside the block grid, the clipped extent of block
`i` admits exactly the offsets that stay inside the logical dimension. -/
theorem lt_blockExtent_iff {dim bs i : Nat} (hb : 0 < bs) (hd : 0 < dim)
    (hi : i < numBlocks dim bs) (x : Nat) :
    x < blockExtent dim bs i (numBlocks dim bs) ↔
      x < bs ∧ i * bs + x < dim := by
  have hdm : bs * (dim / bs) + dim % bs = dim := Nat.div_add_mod dim bs
  have hml : dim % bs < bs := Nat.mod_lt _ hb
  unfold blockExtent
  by_cases hr : dim % bs = 0
  · have hnb : numBlocks dim bs = dim / bs := numBlocks_of_mod_eq_zero hb hd hr
    rw [if_neg (fun hcon => hcon.2 hr)]
    constructor
    · intro hx
      refine ⟨hx, ?_⟩
      have h1 : i + 1 ≤ dim / bs := by omega
      have h2 : (i + 1) * bs ≤ (dim / bs) * bs := Nat.mul_le_mul h1 (Nat.le_refl bs)
      calc i * bs + x < (i + 1) * bs := by rw [Nat.add_mul, one_mul]; omega
      _ ≤ (dim / bs) * bs := h2
      _ = dim := by rw [Nat.mul_comm]; omega
    · exact fun hx => hx.1
  · have hnb : numBlocks dim bs = dim / bs + 1 := numBlocks_of_mod_ne_zero hb hr
    by_cases hlast : i = numBlocks dim bs - 1
    · rw [if_pos ⟨hlast, hr⟩]
      have hieq : i = dim / bs := by omega
      subst hieq
      constructor
      · intro hx
        refine ⟨by omega, ?_⟩
        rw [Nat.mul_comm (dim / bs) bs]
        omega
      · intro hx
        rw [Nat.mul_comm (dim / bs) bs] at hx
        omega
    · rw [if_neg (fun hcon => hlast hcon.1)]
      constructor
      · intro hx
        refine ⟨hx, ?_⟩
        have h1 : i + 1 ≤ dim / bs := by omega
        have h2 : (i + 1) * bs ≤ (dim / bs) * bs := Nat.mul_le_mul h1 (Nat.le_refl bs)
        calc i * bs + x < (i + 1) * bs := by rw [Nat.add_mul, one_mul]; omega
        _ ≤ (dim / bs) * bs := h2
        _ = dim - dim % bs := by rw [Nat.mul_comm]; omega
        _ ≤ dim := by omega
      · exact fun hx => hx.1

/-- Quotient of a coordinate assembled from a block index and an in-block
offset. -/
theorem block_coord_div {bc x bs : Nat} (hb : 0 < bs) (hx : x < bs) :
    (bc * bs + x) / bs = bc := by
  rw [Nat.add_comm, Nat.mul_comm bc bs, Nat.add_mul_div_left x bc hb,
    Nat.div_eq_of_lt hx, Nat.zero_add]

/-- Remainder of a coordinate assembled from a block index and an in-block
offset. -/
theorem block_coord_mod {bc x bs : Nat} (hx : x < bs) :
    (bc * bs + x) % bs = x := by
  rw [Nat.add_comm, Nat.mul_comm bc bs, Nat.add_mul_mod_self_left,
    Nat.mod_eq_of_lt hx]

/-- A flat map of nodup lists over a nodup index list is nodup whenever every
produced element identifies its generating index through a key function. -/
theorem nodup_flatMap_key {γ : Type} (key : γ → Nat) (l : List Nat)
    (f : Nat → List γ) (hl : l.Nodup) (hf : ∀ b ∈ l, (f b).Nodup)
    (hk : ∀ b ∈ l, ∀ c ∈ f b, key c = b) :
    (l.flatMap f).Nodup := by
  induction l with
  | nil => simp
  | cons a rest ih =>
    rw [List.flatMap_cons, List.nodup_append]
    obtain ⟨ha, hrest⟩ := List.nodup_cons.mp hl
    refine ⟨hf a (List.mem_cons_self a rest),
      ih hrest (fun b hb => hf b (List.mem_cons_of_mem a hb))
        (fun b hb c hc => hk b (List.mem_cons_of_mem a hb) c hc), ?_⟩
    intro c hc1 hc2
    obtain ⟨b, hb, hcb⟩ := List.mem_flatMap.mp hc2
    have h1 : key c = a := hk a (List.mem_cons_self a rest) c hc1
    have h2 : key c = b := hk b (List.mem_cons_of_mem a hb) c hcb
    have hab : a = b := h1 ▸ h2
    exact ha (hab ▸ hb)

/-- Membership in the row-major visit sequence is exactly being in bounds. -/
theorem mem_rowMajorCoords (width height : Nat) (p : Nat × Nat) :
    p ∈ rowMajorCoords width height ↔ p.1 < width ∧ p.2 < height := by
  obtain ⟨c, r⟩ := p
  simp only [rowMajorCoords, List.mem_flatMap, List.mem_map, List.mem_range]
  constructor
  · rintro ⟨row, hrow, col, hcol, heq⟩
    cases heq
    exact ⟨hcol, hrow⟩
  · rintro ⟨hc, hr⟩
    exact ⟨r, hr, c, hc, rfl⟩

/-- Membership in the block-major visit sequence is exactly being in
bounds. -/
theorem mem_blockMajorCoords {width height bs : Nat} (hw : 0 < width)
    (hh : 0 < height) (hb : 0 < bs) (p : Nat × Nat) :
    p ∈ blockMajorCoords width height bs ↔ p.1 < width ∧ p.2 < height := by
  obtain ⟨c, r⟩ := p
  simp only [blockMajorCoords, List.mem_flatMap, List.mem_map, List.mem_range]
  constructor
  · rintro ⟨br, hbr, bc, hbc, y, hy, x, hx, heq⟩
    cases heq
    have hxw := (lt_blockExtent_iff hb hw hbc x).mp hx
    have hyh := (lt_blockExtent_iff hb hh hbr y).mp hy
    exact ⟨hxw.2, hyh.2⟩
  · rintro ⟨hc, hr⟩
    refine ⟨r / bs, ?_, c / bs, ?_, r % bs, ?_, c % bs, ?_, ?_⟩
    · rw [Nat.div_lt_iff_lt_mul hb]
      exact Nat.lt_of_lt_of_le hr (le_numBlocks_mul hh hb)
    · rw [Nat.div_lt_iff_lt_mul hb]
      exact Nat.lt_of_lt_of_le hc (le_numBlocks_mul hw hb)
    · refine (lt_blockExtent_iff hb hh ?_ _).mpr
        ⟨Nat.mod_lt _ hb, ?_⟩
      · rw [Nat.div_lt_iff_lt_mul hb]
        exact Nat.lt_of_lt_of_le hr (le_numBlocks_mul hh hb)
      · have := Nat.div_add_mod r bs
        rw [Nat.mul_comm (r / bs) bs]
        omega
    · refine (lt_blockExtent_iff hb hw ?_ _).mpr
        ⟨Nat.mod_lt _ hb, ?_⟩
      · rw [Nat.div_lt_iff_lt_mul hb]
        exact Nat.lt_of_lt_of_le hc (le_numBlocks_mul hw hb)
      · have := Nat.div_add_mod c bs
        rw [Nat.mul_comm (c / bs) bs]
        omega
    · have hcc := Nat.div_add_mod c bs
      have hrr := Nat.div_add_mod r bs
      rw [Nat.mul_comm (c / bs) bs, Nat.mul_comm (r / bs) bs]
      refine Prod.ext ?_ ?_ <;> simp <;> omega

/-- The block-major visit sequence has no repeated coordinate. -/
theorem nodup_blockMajorCoords {width height bs : Nat} (hb : 0 < bs) :
    (blockMajorCoords width height bs).Nodup := by
  unfold blockMajorCoords
  apply nodup_flatMap_key (fun p => p.2 / bs)
  · exact List.nodup_range _
  · intro br hbr
    apply nodup_flatMap_key (fun p => p.1 / bs)
    · exact List.nodup_range _
    · intro bc hbc
      apply nodup_flatMap_key (fun p => p.2 - br * bs)
      · exact List.nodup_range _
      · intro y hy
        refine List.Nodup.map ?_ (List.nodup_range _)
        intro x1 x2 hx
        have := congrArg Prod.fst hx
        simp only at this
        omega
      · intro y hy p hp
        obtain ⟨x, hx, hpx⟩ := List.mem_map.mp hp
        cases hpx
        simp only
        omega
    · intro bc hbc p hp
      simp only [List.mem_flatMap, List.mem_map, List.mem_range] at hp
      obtain ⟨y, hy, x, hx, hpx⟩ := hp
      cases hpx
      have hxbs : x < bs :=
        Nat.lt_of_lt_of_le hx (blockExtent_le hb)
      exact block_coord_div hb hxbs
  · intro br hbr p hp
    simp only [List.mem_flatMap, List.mem_map, List.mem_range] at hp
    obtain ⟨bc, hbc, y, hy, x, hx, hpx⟩ := hp
    cases hpx
    have hybs : y < bs :=
      Nat.lt_of_lt_of_le hy (blockExtent_le hb)
    exact block_coord_div hb hybs

/-! ### Folded writes of the transform engine -/

/-- A destination cell no visited coordinate maps to keeps its old
content. -/
theorem foldl_writeCell_untouched {α : Type} (k : Nat × Nat → Nat × Nat)
    (v : Nat × Nat → α) (l : List (Nat × Nat)) (dest : Nat → Nat → α)
    (q1 q2 : Nat) (hq : ∀ p ∈ l, k p ≠ (q1, q2)) :
    (l.foldl (fun d p => writeCell d (k p).1 (k p).2 (v p)) dest) q1 q2 =
      dest q1 q2 := by
  induction l generalizing dest with
  | nil => rfl
  | cons a rest ih =>
    rw [List.foldl_cons, ih _ (fun p hp => hq p (List.mem_cons_of_mem a hp))]
    unfold writeCell
    rw [if_neg]
    intro hcon
    exact hq a (List.mem_cons_self a rest)
      (Prod.ext_iff.mpr ⟨hcon.1.symm, hcon.2.symm⟩)

/-- A destination cell that some visited coordinate maps to ends up holding
that coordinate's value, provided every visited coordinate mapping there
carries that same value. -/
theorem foldl_writeCell_hits {α : Type} (k : Nat × Nat → Nat × Nat)
    (v : Nat × Nat → α) (l : List (Nat × Nat)) (dest : Nat → Nat → α)
    (p0 : Nat × Nat) (hp0 : p0 ∈ l)
    (huniq : ∀ p ∈ l, k p = k p0 → v p = v p0) :
    (l.foldl (fun d p => writeCell d (k p).1 (k p).2 (v p)) dest)
      (k p0).1 (k p0).2 = v p0 := by
  induction l generalizing dest p0 with
  | nil => cases hp0
  | cons a rest ih =>
    rw [List.foldl_cons]
    by_cases hmem : ∃ p1 ∈ rest, k p1 = k p0
    · obtain ⟨p1, hp1, hk1⟩ := hmem
      have hv1 : v p1 = v p0 := huniq p1 (List.mem_cons_of_mem a hp1) hk1
      rw [← hk1, ← hv1]
      exact ih _ p1 hp1 (fun p hp hkp =>
        (huniq p (List.mem_cons_of_mem a hp) (hkp.trans hk1)).trans hv1.symm)
    · have hp0a : p0 = a := by
        rcases List.mem_cons.mp hp0 with h | h
        · exact h
        · exact absurd ⟨p0, h, rfl⟩ hmem
      subst hp0a
      rw [foldl_writeCell_untouched k v rest _ (k p0).1 (k p0).2
        (fun p hp hkp => hmem ⟨p, hp, hkp.trans Prod.mk.eta⟩)]
      unfold writeCell
      rw [if_pos ⟨rfl, rfl⟩]

/-- Contents of the rotate-90 transform: destination cell (x, y) holds the
source cell (y, height - 1 - x). -/
theorem transform_rotate90_pix {α : Type} (d : α) (g : Grid α) (x y : Nat)
    (hx : x < g.height) (hy : y < g.width) :
    (transform_rotate90 d g).pix x y = g.pix y (g.height - 1 - x) := by
  have hstep : (fun (dest : Nat → Nat → α) (p : Nat × Nat) =>
      rotate_map_apply 90 g.width g.height p.1 p.2 (g.pix p.1 p.2) dest) =
      (fun (dest : Nat → Nat → α) (p : Nat × Nat) =>
        writeCell dest (g.height - p.2 - 1) p.1 (g.pix p.1 p.2)) := by
    funext dest p
    unfold rotate_map_apply rotate_map_dest
    norm_num
  have hp0 : (y, g.height - 1 - x) ∈ rowMajorCoords g.width g.height :=
    (mem_rowMajorCoords _ _ _).mpr ⟨hy, by omega⟩
  have huniq : ∀ p ∈ rowMajorCoords g.width g.height,
      (fun q : Nat × Nat => (g.height - q.2 - 1, q.1)) p =
        (fun q : Nat × Nat => (g.height - q.2 - 1, q.1))
          (y, g.height - 1 - x) →
      (fun q : Nat × Nat => g.pix q.1 q.2) p =
        (fun q : Nat × Nat => g.pix q.1 q.2) (y, g.height - 1 - x) := by
    intro p hp hk
    obtain ⟨pc, pr⟩ := p
    have hpb := (mem_rowMajorCoords _ _ _).mp hp
    simp only at hpb hk ⊢
    have h1 := congrArg Prod.fst hk
    have h2 := congrArg Prod.snd hk
    simp only at h1 h2
    have hpc : pc = y := h2
    have hpr : pr = g.height - 1 - x := by omega
    rw [hpc, hpr]
  have hmain := foldl_writeCell_hits
    (fun q : Nat × Nat => (g.height - q.2 - 1, q.1))
    (fun q : Nat × Nat => g.pix q.1 q.2)
    (rowMajorCoords g.width g.height) (fun _ _ => d)
    (y, g.height - 1 - x) hp0 huniq
  simp only at hmain
  have e1 : g.height - (g.height - 1 - x) - 1 = x := by omega
  rw [e1] at hmain
  unfold transform_rotate90
  simp only
  rw [hstep]
  exact hmain

/-- Dimensions of the rotate-90 transform: width and height swap. -/
theorem transform_rotate90_dims {α : Type} (d : α) (g : Grid α) :
    (transform_rotate90 d g).width = g.height ∧
    (transform_rotate90 d g).height = g.width := by
  constructor <;>
    simp [transform_rotate90, create_image_dims, ROTATE, TRANSPOSE]

/-- The (block, offset) translation used by `UArray2b_at` is injective for
any positive blocksize. -/
theorem uarray2b_index_inj {bs col row col' row' : Nat} (hb : 0 < bs)
    (hblk : (col / bs, row / bs) = (col' / bs, row' / bs))
    (hoff : bs * (row % bs) + col % bs = bs * (row' % bs) + col' % bs) :
    col = col' ∧ row = row' := by
  have h1 := congrArg Prod.fst hblk
  have h2 := congrArg Prod.snd hblk
  simp only at h1 h2
  rw [Nat.mul_comm bs (row % bs), Nat.mul_comm bs (row' % bs)] at hoff
  have hcm : col % bs = col' % bs := by
    have hmm := congrArg (fun t => t % bs) hoff
    simp only at hmm
    rwa [block_coord_mod (Nat.mod_lt _ hb),
      block_coord_mod (Nat.mod_lt _ hb)] at hmm
  have hrm : row % bs = row' % bs := by
    have hdd := congrArg (fun t => t / bs) hoff
    simp only at hdd
    rwa [block_coord_div hb (Nat.mod_lt _ hb),
      block_coord_div hb (Nat.mod_lt _ hb)] at hdd
  have e1 := Nat.div_add_mod col bs
  have e2 := Nat.div_add_mod col' bs
  have e3 := Nat.div_add_mod row bs
  have e4 := Nat.div_add_mod row' bs
  constructor
  · have heq : bs * (col / bs) + col % bs = bs * (col' / bs) + col' % bs := by
      rw [h1, hcm]
    omega
  · have heq : bs * (row / bs) + row % bs = bs * (row' / bs) + row' % bs := by
      rw [h2, hrm]
    omega

/-- In a list without duplicates every member has count one. -/
theorem count_eq_one_of_nodup_mem {p : Nat × Nat} {l : List (Nat × Nat)}
    (hn : l.Nodup) (hm : p ∈ l) : l.count p = 1 := by
  induction l with
  | nil => cases hm
  | cons a rest ih =>
    rw [List.count_cons]
    obtain ⟨ha, hrest⟩ := List.nodup_cons.mp hn
    rcases List.mem_cons.mp hm with rfl | hmem
    · rw [List.count_eq_zero.mpr ha]
      simp
    · rw [ih hrest hmem, if_neg]
      intro hax
      exact ha (beq_iff_eq.mp hax ▸ hmem)

/-! ### Claim theorems (second group) -/

/-- C1: for valid dimensions and blocksize, `UArray2b_map` invokes the
callback on every logical coordinate in [0, width) × [0, height) exactly
once; the visited set equals the row-major visited set; and the last block
row and the last block column are clipped to `dim mod blocksize` cells when
that is nonzero, else to the full blocksize. -/
theorem UArray2b_map_visits_exactly_once (width height bs : Nat)
    (hw : 0 < width) (hh : 0 < height) (hb1 : 1 ≤ bs) (hbw : bs ≤ width)
    (hbh : bs ≤ height) :
    (∀ p : Nat × Nat, (blockMajorCoords width height bs).count p =
      if p.1 < width ∧ p.2 < height then 1 else 0) ∧
    (∀ p : Nat × Nat, p ∈ blockMajorCoords width height bs ↔
      p ∈ rowMajorCoords width height) ∧
    blockExtent height bs (numBlocks height bs - 1) (numBlocks height bs) =
      (if height % bs = 0 then bs else height % bs) ∧
    blockExtent width bs (numBlocks width bs - 1) (numBlocks width bs) =
      (if width % bs = 0 then bs else width % bs) := by
  have hb : 0 < bs := hb1
  refine ⟨?_, ?_, ?_, ?_⟩
  · intro p
    by_cases hp : p.1 < width ∧ p.2 < height
    · rw [if_pos hp]
      exact count_eq_one_of_nodup_mem (nodup_blockMajorCoords hb)
        ((mem_blockMajorCoords hw hh hb p).mpr hp)
    · rw [if_neg hp]
      exact List.count_eq_zero.mpr
        (fun hmem => hp ((mem_blockMajorCoords hw hh hb p).mp hmem))
  · intro p
    rw [mem_blockMajorCoords hw hh hb p, mem_rowMajorCoords]
  · by_cases hm : height % bs = 0 <;> simp [blockExtent, hm]
  · by_cases hm : width % bs = 0 <;> simp [blockExtent, hm]

/-- Witness for C1 on the spec's 10 × 10 grid with blocksize 4: the corner
coordinate (9, 9) is visited exactly once. -/
theorem UArray2b_map_visits_exactly_once_witness :
    (blockMajorCoords 10 10 4).count (9, 9) =
      if 9 < 10 ∧ 9 < 10 then 1 else 0 :=
  (UArray2b_map_visits_exactly_once 10 10 4 (by decide) (by decide)
    (by decide) (by decide) (by decide)).1 (9, 9)

/-- C4: `UArray2b_at` resolves (col, row) to block
(col / blocksize, row / blocksize) at flat offset
blocksize · (row % blocksize) + col % blocksize; a write through the
returned reference is observed by a subsequent read at the same coordinate;
distinct coordinates never alias; and the element the traversal passes to
the callback at a coordinate is that same element. -/
theorem UArray2b_at_write_read {α : Type} (g : UArray2b α)
    (col row col' row' : Nat) (hb : 1 ≤ g.blocksize)
    (hc : col < g.width) (hr : row < g.height)
    (hc' : col' < g.width) (hr' : row' < g.height) :
    (UArray2b_at g col row =
      g.blocks (col / g.blocksize, row / g.blocksize)
        (g.blocksize * (row % g.blocksize) + col % g.blocksize)) ∧
    (∀ v : α, UArray2b_at (UArray2b_write g col row v) col row = v) ∧
    ((col, row) ≠ (col', row') → ∀ v : α,
      UArray2b_at (UArray2b_write g col row v) col' row' =
        UArray2b_at g col' row') ∧
    (∀ e ∈ UArray2b_map_visits g, e.2 = UArray2b_at g e.1.1 e.1.2) := by
  refine ⟨rfl, ?_, ?_, ?_⟩
  · intro v
    simp [UArray2b_at, UArray2b_write]
  · intro hne v
    unfold UArray2b_at UArray2b_write
    simp only
    rw [if_neg]
    rintro ⟨hblk, hoff⟩
    obtain ⟨hc1, hr1⟩ := uarray2b_index_inj hb hblk hoff
    exact hne (by rw [hc1, hr1])
  · intro e he
    obtain ⟨p, hp, hpe⟩ := List.mem_map.mp he
    cases hpe
    rfl

/-- Witness for C4 on a 3 × 3 grid with blocksize 2: a write at (1, 2) is
read back at (1, 2) and does not disturb (0, 0). -/
theorem UArray2b_at_write_read_witness :
    UArray2b_at (UArray2b_write
      { width := 3, height := 3, blocksize := 2,
        blocks := fun _ _ => (0 : Nat) } 1 2 5) 1 2 = 5 ∧
    UArray2b_at (UArray2b_write
      { width := 3, height := 3, blocksize := 2,
        blocks := fun _ _ => (0 : Nat) } 1 2 5) 0 0 = 0 :=
  ⟨(UArray2b_at_write_read
      { width := 3, height := 3, blocksize := 2,
        blocks := fun _ _ => (0 : Nat) } 1 2 0 0
      (by decide) (by decide) (by decide) (by decide) (by decide)).2.1 5,
   (UArray2b_at_write_read
      { width := 3, height := 3, blocksize := 2,
        blocks := fun _ _ => (0 : Nat) } 1 2 0 0
      (by decide) (by decide) (by decide) (by decide) (by decide)).2.2.1
     (by decide) 5⟩

/-- C6: applying the rotate-90 transform four times restores the dimensions
and every in-bounds element of the original grid. -/
theorem rotate90_four_times_id {α : Type} (d : α) (g : Grid α) :
    (transform_rotate90 d (transform_rotate90 d (transform_rotate90 d
      (transform_rotate90 d g)))).width = g.width ∧
    (transform_rotate90 d (transform_rotate90 d (transform_rotate90 d
      (transform_rotate90 d g)))).height = g.height ∧
    (∀ c r : Nat, c < g.width → r < g.height →
      (transform_rotate90 d (transform_rotate90 d (transform_rotate90 d
        (transform_rotate90 d g)))).pix c r = g.pix c r) := by
  obtain ⟨hw1, hh1⟩ := transform_rotate90_dims d g
  obtain ⟨hw2, hh2⟩ := transform_rotate90_dims d (transform_rotate90 d g)
  obtain ⟨hw3, hh3⟩ := transform_rotate90_dims d
    (transform_rotate90 d (transform_rotate90 d g))
  obtain ⟨hw4, hh4⟩ := transform_rotate90_dims d (transform_rotate90 d
    (transform_rotate90 d (transform_rotate90 d g)))
  refine ⟨by rw [hw4, hh3, hw2, hh1], by rw [hh4, hw3, hh2, hw1], ?_⟩
  intro c r hc hr
  have hc3 : c < (transform_rotate90 d (transform_rotate90 d
      (transform_rotate90 d g))).height := by rw [hh3, hw2, hh1]; exact hc
  have hr3 : r < (transform_rotate90 d (transform_rotate90 d
      (transform_rotate90 d g))).width := by rw [hw3, hh2, hw1]; exact hr
  rw [transform_rotate90_pix d _ c r hc3 hr3]
  rw [hh3, hw2, hh1]
  have hx2 : r < (transform_rotate90 d (transform_rotate90 d g)).height := by
    rw [hh2, hw1]; exact hr
  have hy2 : g.width - 1 - c <
      (transform_rotate90 d (transform_rotate90 d g)).width := by
    rw [hw2, hh1]; omega
  rw [transform_rotate90_pix d _ r (g.width - 1 - c) hx2 hy2]
  rw [hh2, hw1]
  have hx1 : g.width - 1 - c < (transform_rotate90 d g).height := by
    rw [hh1]; omega
  have hy1 : g.height - 1 - r < (transform_rotate90 d g).width := by
    rw [hw1]; omega
  rw [transform_rotate90_pix d _ (g.width - 1 - c) (g.height - 1 - r) hx1 hy1]
  rw [hh1]
  have hx0 : g.height - 1 - r < g.height := by omega
  have hy0 : g.width - 1 - (g.width - 1 - c) < g.width := by omega
  rw [transform_rotate90_pix d _ (g.height - 1 - r)
    (g.width - 1 - (g.width - 1 - c)) hx0 (by omega)]
  have e1 : g.width - 1 - (g.width - 1 - c) = c := by omega
  have e2 : g.height - 1 - (g.height - 1 - r) = r := by omega
  rw [e1, e2]

/-- Witness for C6 on a concrete 2 × 3 grid. -/
theorem rotate90_four_times_id_witness :
    (transform_rotate90 0 (transform_rotate90 0 (transform_rotate90 0
      (transform_rotate90 0
        { width := 2, height := 3,
          pix := fun c r => 10 * c + r })))).pix 1 2 =
      ({ width := 2, height := 3,
          pix := fun c r => 10 * c + r } : Grid Nat).pix 1 2 :=
  (rotate90_four_times_id 0
    { width := 2, height := 3, pix := fun c r => 10 * c + r }).2.2 1 2
    (by decide) (by decide)

/-- C7 is violated by the code: `UArray2b_at` asserts only
`col < width && row < height`, so the out-of-range access
(col, row) = (-1, 1) on a 2 × 2 grid with blocksize 2 passes every check the
program performs and resolves to block (0, 0) at offset 1 — the very element
of the in-bounds cell (1, 0) — instead of failing with a bounds error.  An
access beyond the upper bound is detected. -/
theorem UArray2b_at_negative_col_aliases :
    UArray2b_at_checked 2 2 2 (-1) 1 = some ((0, 0), 1) ∧
    UArray2b_at_checked 2 2 2 1 0 = some ((0, 0), 1) ∧
    UArray2b_at_checked 2 2 2 2 1 = none := by
  refine ⟨?_, ?_, ?_⟩ <;> decide

/-- C8: the plain suite's block-major slots (full and reduced arity) are
absent, and `SET_METHODS` on any suite whose block-major slot is absent
detects the absence and fails with a configuration error instead of
dereferencing the slot; when it succeeds, the map it uses is exactly the one
stored in the slot. -/
theorem plain_block_major_absent :
    uarray2_methods_plain.map_block_major = none ∧
    uarray2_methods_plain.small_map_block_major = none ∧
    (∀ m : A2Methods_T, m.map_block_major = none →
      SET_METHODS m (fun s => s.map_block_major) = Except.error ()) ∧
    (∀ (m : A2Methods_T) (f : A2MapFun),
      SET_METHODS m (fun s => s.map_block_major) = Except.ok f →
      m.map_block_major = some f) := by
  refine ⟨rfl, rfl, ?_, ?_⟩
  · intro m hm
    simp only [SET_METHODS]
    rw [hm]
  · intro m f hf
    simp only [SET_METHODS] at hf
    cases hm : m.map_block_major with
    | none => rw [hm] at hf; cases hf
    | some f0 => rw [hm] at hf; cases hf; rfl

/-- Witness for C8: selecting block-major mapping on the plain suite fails
with the configuration error. -/
theorem plain_block_major_absent_witness :
    SET_METHODS uarray2_methods_plain (fun s => s.map_block_major) =
      Except.error () :=
  plain_block_major_absent.2.2.1 uarray2_methods_plain rfl

/-- C10: in the plain suite the default slots are the very row-major slots
(`map_default = map_row_major`, `small_map_default = small_map_row_major`),
so a caller selecting the default order observes visits identical — same
elements, same order — to row-major. -/
theorem plain_default_is_row_major :
    uarray2_methods_plain.map_default = uarray2_methods_plain.map_row_major ∧
    uarray2_methods_plain.small_map_default =
      uarray2_methods_plain.small_map_row_major ∧
    uarray2_methods_plain.map_default = some A2Plain.map_row_major ∧
    uarray2_methods_plain.small_map_default =
      some A2Plain.small_map_row_major ∧
    (∀ width height : Nat,
      A2Plain.map_row_major width height = rowMajorCoords width height ∧
      A2Plain.small_map_row_major width height =
        rowMajorCoords width height) :=
  ⟨rfl, rfl, rfl, rfl, fun _ _ => ⟨rfl, rfl⟩⟩
